import Mathlib

/-
  Shallow embedding of the bprof profiler core (src/src/demo.cpp).

  Durations and timestamps are nanosecond counts modelled as Nat (the C++
  uses std::chrono::nanoseconds from a monotonic clock).  size_t index
  arithmetic, where underflow matters, is modelled explicitly modulo 2^64.
  Fallible operations (unordered_map::at, vector::at, stack::top on an
  empty stack) are modelled in Except String.
-/

namespace Bprof

/-- 2^64, the size_t modulus. -/
def u64 : Nat := 18446744073709551616

/-- size_t subtraction with wraparound, as in `current_line_-starting_line_-1`. -/
def usub64 (a b : Nat) : Nat := (a % u64 + (u64 - b % u64)) % u64

/-- Association-list lookup, modelling `unordered_map::at` / `count`. -/
def alookup {K : Type} {V : Type} [DecidableEq K] : List (K × V) → K → Option V
  | [], _ => none
  | (k', v) :: t, k => if k = k' then some v else alookup t k

/-- Modification of an existing entry (mutation through a reference obtained by `at`). -/
def amodify {K V : Type} [DecidableEq K] : List (K × V) → K → (V → V) → List (K × V)
  | [], _, _ => []
  | (k', v) :: t, k, g => if k = k' then (k', g v) :: t else (k', v) :: amodify t k g

/-- `unordered_map::emplace`: inserts only when the key is absent. -/
def ainsert {K V : Type} [DecidableEq K] (m : List (K × V)) (k : K) (v : V) : List (K × V) :=
  match alookup m k with
  | some _ => m
  | none => (k, v) :: m

/-- LineState: call count plus internal/external time for one source line. -/
structure LineState where
  n_calls : Nat
  internal : Nat
  external : Nat
deriving DecidableEq

def LineState.init : LineState := ⟨0, 0, 0⟩

def LineState.add_internal (l : LineState) (dur : Nat) : LineState :=
  { l with internal := l.internal + dur }

def LineState.add_external (l : LineState) (dur : Nat) : LineState :=
  { l with external := l.external + dur }

def LineState.add_call (l : LineState) : LineState :=
  { l with n_calls := l.n_calls + 1 }

/-- `LineState::operator+=`: componentwise sum of the two triples. -/
def LineState.merge (l r : LineState) : LineState :=
  ⟨l.n_calls + r.n_calls, l.internal + r.internal, l.external + r.external⟩

/-- LineRecord: a persistent LineState together with the source line text. -/
structure LineRecord where
  state : LineState
  line : String
deriving DecidableEq

/-- BaseFunction: persistent aggregate for a (possibly native) callable. -/
structure BaseFunction where
  n_calls : Nat
  name : String
  internal_time : Nat
deriving DecidableEq

def BaseFunction.init (name : String) : BaseFunction := ⟨0, name, 0⟩

def BaseFunction.add_elapsed_internal (f : BaseFunction) (t : Nat) : BaseFunction :=
  { f with internal_time := f.internal_time + t }

def BaseFunction.add_call (f : BaseFunction) : BaseFunction :=
  { f with n_calls := f.n_calls + 1 }

/-- Function: a BaseFunction plus code identity and persistent line records.
    The constructor builds one default LineRecord per given source line. -/
structure Function where
  base : BaseFunction
  code : Nat
  lines : List LineRecord
deriving DecidableEq

def Function.make (name : String) (srcLines : List String) (code : Nat) : Function :=
  ⟨BaseFunction.init name, code, srcLines.map fun l => ⟨LineState.init, l⟩⟩

def Function.add_elapsed_internal (f : Function) (t : Nat) : Function :=
  { f with base := f.base.add_elapsed_internal t }

def Function.add_call (f : Function) : Function :=
  { f with base := f.base.add_call }

def Function.n_lines (f : Function) : Nat := f.lines.length

/-- The last-instruction marker. -/
inductive Instruction
  | kOrigin
  | kLine
  | kCall
  | kReturn
  | kException
  | kCCall
  | kCReturn
  | kCException
  | kInvalid
deriving DecidableEq

/-- FrameState: one active invocation. -/
structure FrameState where
  starting_line : Nat
  current_line : Nat
  function_key : Nat
  lines : List LineState
  internal : Nat
deriving DecidableEq

/-- The FrameState constructor: `lines_.resize(n_lines)` default-initializes. -/
def FrameState.make (code : Nat) (n_lines : Nat) (starting_line : Nat) : FrameState :=
  ⟨starting_line, 0, code, List.replicate n_lines LineState.init, 0⟩

/-- `FrameState::total_time`: sum of internal+external over all lines. -/
def FrameState.total_time (f : FrameState) : Nat :=
  f.lines.foldl (fun acc l => acc + l.internal + l.external) 0

/-- The size_t index `current_line_-starting_line_-1` used by `current_line()`. -/
def FrameState.lineIdx (f : FrameState) : Nat :=
  usub64 (usub64 f.current_line f.starting_line) 1

/-- `FrameState::current_line()` as a checked read (`vector::at`). -/
def FrameState.getCurrentLine (f : FrameState) : Option LineState :=
  f.lines.get? f.lineIdx

/-- Mutation through the reference returned by `current_line()`; fails where `at` throws. -/
def FrameState.modifyCurrentLine (f : FrameState) (g : LineState → LineState) :
    Option FrameState :=
  match f.lines.get? f.lineIdx with
  | none => none
  | some l => some { f with lines := f.lines.set f.lineIdx (g l) }

def FrameState.set_current_line (f : FrameState) (n : Nat) : FrameState :=
  { f with current_line := n }

def FrameState.add_internal (f : FrameState) (dur : Nat) : FrameState :=
  { f with internal := f.internal + dur }

/-- The event kinds delivered by the host, with their payloads: the line number
    for LINE, and for CALL the host-introspected data (`PyFrame_GetName`,
    `inspect.getsourcelines` result: the raw source lines and the starting line). -/
inductive What
  | LINE (line : Nat)
  | CALL (name : String) (srcLines : List String) (lineStart : Nat)
  | RETURN
  | C_CALL (cname : String)
  | C_RETURN
  | EXCEPTION
  | C_EXCEPTION
  | OPCODE
deriving DecidableEq

/-- One host event: the code identity of the frame it occurs in (`frame->f_code`),
    its kind, and the monotonic-clock timestamp of its arrival. -/
structure Event where
  code : Nat
  what : What
  time : Nat
deriving DecidableEq

/-- The Module state: the two registries, the frame stack (head = top),
    the last-instruction marker, the last timestamp, and the remembered C name. -/
structure Module where
  functions : List (Nat × Function)
  c_functions : List (String × BaseFunction)
  frame_stack : List FrameState
  last_instruction : Instruction
  last_time : Nat
  last_c_name : String
deriving DecidableEq

/-- `Module::get_lines`: the copy loop starts at index 1, dropping the first
    host-returned line (the definition line). -/
def get_lines (srcLines : List String) : List String := srcLines.drop 1

/-- `Module::emplace_frame`: push a FrameState sized by get_lines. -/
def Module.emplace_frame (s : Module) (code : Nat) (srcLines : List String)
    (lineStart : Nat) : Module :=
  { s with frame_stack :=
      FrameState.make code (get_lines srcLines).length lineStart :: s.frame_stack }

/-- Merging each ephemeral LineState into the persistent LineRecord at the same
    index (`function.line(i++) += line`); fails where `vector::at` throws. -/
def mergeLines : List LineRecord → List LineState → Option (List LineRecord)
  | recs, [] => some recs
  | [], _ :: _ => none
  | r :: recs, l :: ls =>
    match mergeLines recs ls with
    | none => none
    | some rs => some ({ r with state := r.state.merge l } :: rs)

/-- `Module::pop_frame`. -/
def Module.pop_frame (s : Module) : Except String Module :=
  match s.frame_stack with
  | [] => .error "pop_frame: empty stack"
  | f :: rest =>
    match alookup s.functions f.function_key with
    | none => .error "pop_frame: unknown function"
    | some fn =>
      let fn2 := fn.add_elapsed_internal f.internal
      match mergeLines fn2.lines f.lines with
      | none => .error "pop_frame: line index out of range"
      | some recs =>
        let fns := amodify s.functions f.function_key fun _ => { fn2 with lines := recs }
        let total := f.total_time
        match rest with
        | [] => .ok { s with functions := fns, frame_stack := [] }
        | caller :: below =>
          match caller.modifyCurrentLine fun l => l.add_external total with
          | none => .error "pop_frame: caller current line out of range"
          | some caller2 => .ok { s with functions := fns, frame_stack := caller2 :: below }

/-- `Module::finish_origin`: no-op. -/
def Module.finish_origin (s : Module) : Except String Module := .ok s

/-- `Module::finish_line`: guarded by an empty-stack check. -/
def Module.finish_line (s : Module) (d : Nat) : Except String Module :=
  match s.frame_stack with
  | [] => .ok s
  | f :: rest =>
    match f.modifyCurrentLine fun l => l.add_internal d with
    | none => .error "finish_line: current line out of range"
    | some f2 => .ok { s with frame_stack := f2 :: rest }

/-- `Module::finish_call`: adds elapsed to the aggregate of the incoming
    event's frame code; `unordered_map::at` fails on a missing key. -/
def Module.finish_call (s : Module) (code : Nat) (d : Nat) : Except String Module :=
  match alookup s.functions code with
  | none => .error "finish_call: unknown function"
  | some _ =>
    .ok { s with functions := amodify s.functions code fun fn => fn.add_elapsed_internal d }

/-- `Module::finish_return`: unguarded `top()`, add elapsed to the frame's
    overhead accumulator, then pop. -/
def Module.finish_return (s : Module) (d : Nat) : Except String Module :=
  match s.frame_stack with
  | [] => .error "finish_return: empty stack"
  | f :: rest => Module.pop_frame { s with frame_stack := f.add_internal d :: rest }

/-- `Module::finish_ccall`: add elapsed to the remembered C function's aggregate
    and to the top frame's current line's external time; both accesses unguarded. -/
def Module.finish_ccall (s : Module) (d : Nat) : Except String Module :=
  match alookup s.c_functions s.last_c_name with
  | none => .error "finish_ccall: unknown c function"
  | some _ =>
    let s2 := { s with
      c_functions := amodify s.c_functions s.last_c_name fun fn => fn.add_elapsed_internal d }
    match s2.frame_stack with
    | [] => .error "finish_ccall: empty stack"
    | f :: rest =>
      match f.modifyCurrentLine fun l => l.add_external d with
      | none => .error "finish_ccall: current line out of range"
      | some f2 => .ok { s2 with frame_stack := f2 :: rest }

/-- `Module::finish_creturn`: unguarded `top()`, add elapsed to frame overhead. -/
def Module.finish_creturn (s : Module) (d : Nat) : Except String Module :=
  match s.frame_stack with
  | [] => .error "finish_creturn: empty stack"
  | f :: rest => .ok { s with frame_stack := f.add_internal d :: rest }

/-- `Module::add_function`: return the existing entry, or create it from the
    host introspection data (get_lines drops the definition line). -/
def Module.add_function (s : Module) (code : Nat) (name : String)
    (srcLines : List String) : Module :=
  match alookup s.functions code with
  | some _ => s
  | none =>
    { s with functions := ainsert s.functions code (Function.make name (get_lines srcLines) code) }

/-- `Module::profile_call`: resolve-or-create, bump the call count, push a frame. -/
def Module.profile_call (s : Module) (code : Nat) (name : String)
    (srcLines : List String) (lineStart : Nat) : Module :=
  let s1 := s.add_function code name srcLines
  let s2 := { s1 with functions := amodify s1.functions code Function.add_call }
  let s3 := s2.emplace_frame code srcLines lineStart
  { s3 with last_instruction := .kCall }

/-- `Module::profile_line`: sets the marker first, then guards the empty stack,
    then moves the line cursor and bumps that line's call count. -/
def Module.profile_line (s : Module) (line : Nat) : Except String Module :=
  let s1 := { s with last_instruction := .kLine }
  match s1.frame_stack with
  | [] => .ok s1
  | f :: rest =>
    match (f.set_current_line line).modifyCurrentLine LineState.add_call with
    | none => .error "profile_line: line out of range"
    | some f2 => .ok { s1 with frame_stack := f2 :: rest }

/-- `Module::add_c_function`: emplace (no overwrite). -/
def Module.add_c_function (s : Module) (name : String) : Module :=
  { s with c_functions := ainsert s.c_functions name (BaseFunction.init name) }

/-- `Module::profile_c_call`: remember the formatted name, resolve-or-create,
    bump the call count, set the marker. -/
def Module.profile_c_call (s : Module) (cname : String) : Module :=
  let s1 := { s with last_c_name := cname }
  let s2 := s1.add_c_function cname
  let s3 := { s2 with c_functions := amodify s2.c_functions cname BaseFunction.add_call }
  { s3 with last_instruction := .kCCall }

/-- `Module::profile_return`: mark only. -/
def Module.profile_return (s : Module) : Module :=
  { s with last_instruction := .kReturn }

/-- `Module::profile_c_return`: mark only. -/
def Module.profile_c_return (s : Module) : Module :=
  { s with last_instruction := .kCReturn }

/-- The Finish phase of `Module::profile`: dispatch on the last instruction,
    with elapsed = the incoming timestamp minus the last recorded one. -/
def Module.finishPhase (s : Module) (e : Event) : Except String Module :=
  match s.last_instruction with
  | .kOrigin => s.finish_origin
  | .kLine => s.finish_line (e.time - s.last_time)
  | .kCall => s.finish_call e.code (e.time - s.last_time)
  | .kReturn => s.finish_return (e.time - s.last_time)
  | .kException => .ok s
  | .kCCall => s.finish_ccall (e.time - s.last_time)
  | .kCReturn => s.finish_creturn (e.time - s.last_time)
  | .kCException => .ok s
  | .kInvalid => .ok s

/-- The Begin phase of `Module::profile`: dispatch on the incoming event kind.
    PyTrace_EXCEPTION and PyTrace_OPCODE are `break`s; PyTrace_C_EXCEPTION
    calls `profile_c_return`. -/
def Module.beginPhase (s : Module) (e : Event) : Except String Module :=
  match e.what with
  | .LINE n => s.profile_line n
  | .CALL name srcLines lineStart => .ok (s.profile_call e.code name srcLines lineStart)
  | .RETURN => .ok s.profile_return
  | .C_CALL cname => .ok (s.profile_c_call cname)
  | .C_RETURN => .ok s.profile_c_return
  | .EXCEPTION => .ok s
  | .C_EXCEPTION => .ok s.profile_c_return
  | .OPCODE => .ok s

/-- `Module::profile`: Finish the previous event, Begin the new one, then
    record the new timestamp (`last_instruction_start_ = clock::now()`). -/
def Module.profile (s : Module) (e : Event) : Except String Module :=
  match s.finishPhase e with
  | .error msg => .error msg
  | .ok s1 =>
    match s1.beginPhase e with
    | .error msg => .error msg
    | .ok s2 => .ok { s2 with last_time := e.time }

/-- Processing a sequence of events in order. -/
def Module.profileList (s : Module) : List Event → Except String Module
  | [] => .ok s
  | e :: es =>
    match s.profile e with
    | .error msg => .error msg
    | .ok s2 => s2.profileList es

/-- The state right after `Module::Module` and `start()`: empty registries and
    stack, marker `kOrigin`. -/
def initState : Module := ⟨[], [], [], .kOrigin, 0, ""⟩

/-- The state after running a trace from the initial state, when no step failed. -/
def stateAfter (es : List Event) : Option Module :=
  (initState.profileList es).toOption

/-- One line entry of the report built by `Module::dump`. -/
structure LineReport where
  line_str : String
  n_calls : Nat
  internal_ns : Nat
  external_ns : Nat
deriving DecidableEq

/-- One function entry of the report; native entries carry no `lines` key. -/
structure FunctionReport where
  name : String
  n_calls : Nat
  internal_ns : Nat
  lines : Option (List LineReport)
deriving DecidableEq

/-- The whole report returned by `Module::dump`. -/
structure Report where
  functions : List (Nat × FunctionReport)
  c_functions : List (String × FunctionReport)
deriving DecidableEq

/-- `CreateFunctionDict`: name, n_calls, internal_ns. -/
def CreateFunctionDict (f : BaseFunction) : FunctionReport :=
  ⟨f.name, f.n_calls, f.internal_time, none⟩

/-- One line dict of the dump loop. -/
def lineDict (l : LineRecord) : LineReport :=
  ⟨l.line, l.state.n_calls, l.state.internal, l.state.external⟩

/-- `Module::dump`: a read-only traversal of the two registries. -/
def Module.dump (s : Module) : Report :=
  ⟨s.functions.map fun p =>
      (p.1, { CreateFunctionDict p.2.base with lines := some (p.2.lines.map lineDict) }),
   s.c_functions.map fun p => (p.1, CreateFunctionDict p.2)⟩

/-- A session command: deliver one event, or call `dump`. -/
inductive Cmd
  | ev (e : Event)
  | dump

/-- Run a command list, collecting the reports produced by the dump commands. -/
def Module.runCmds (s : Module) : List Cmd → Except String (Module × List Report)
  | [] => .ok (s, [])
  | .ev e :: cs =>
    match s.profile e with
    | .error m => .error m
    | .ok s2 => s2.runCmds cs
  | .dump :: cs =>
    match s.runCmds cs with
    | .error m => .error m
    | .ok (s2, rs) => .ok (s2, s.dump :: rs)

/- ------------------------------------------------------------------ -/
/- Helper lemmas on the association-list registry operations.          -/
/- ------------------------------------------------------------------ -/

theorem alookup_amodify {K V : Type} [DecidableEq K] (m : List (K × V)) (k : K)
    (g : V → V) (q : K) :
    alookup (amodify m k g) q = if q = k then (alookup m k).map g else alookup m q := by
  induction m with
  | nil => simp [amodify, alookup]
  | cons p t ih =>
    obtain ⟨k', v⟩ := p
    by_cases hk : k = k' <;> by_cases hq : q = k'
    · have hqk : q = k := hq.trans hk.symm
      simp [amodify, alookup, hk, hq, hqk]
    · have hqk : ¬ q = k := fun h => hq (h.trans hk)
      simp [amodify, alookup, hk, hq, hqk]
    · have hqk : ¬ q = k := fun h => hk (h ▸ hq)
      have hk2 : ¬ k' = k := fun h => hk h.symm
      simp [amodify, alookup, hk, hq, hqk, hk2]
    · simp [amodify, alookup, hk, hq, ih]

theorem alookup_ainsert {K V : Type} [DecidableEq K] (m : List (K × V)) (k : K)
    (v : V) (q : K) :
    alookup (ainsert m k v) q =
      if q = k then some ((alookup m k).getD v) else alookup m q := by
  unfold ainsert
  cases h : alookup m k with
  | some w => by_cases hq : q = k <;> simp [h, hq]
  | none => by_cases hq : q = k <;> simp [alookup, h, hq]

theorem alookup_amodify_isSome {K V : Type} [DecidableEq K] (m : List (K × V))
    (k : K) (g : V → V) (q : K) :
    (alookup (amodify m k g) q).isSome = (alookup m q).isSome := by
  rw [alookup_amodify]
  by_cases hq : q = k <;> simp [hq]

/- ------------------------------------------------------------------ -/
/- Inversion lemmas for the handlers.                                  -/
/- ------------------------------------------------------------------ -/

theorem finish_line_inv (s : Module) (d : Nat) (s' : Module)
    (h : s.finish_line d = .ok s') :
    (s.frame_stack = [] ∧ s' = s) ∨
    ∃ f rest f2, s.frame_stack = f :: rest ∧
      f.modifyCurrentLine (fun l => l.add_internal d) = some f2 ∧
      s' = { s with frame_stack := f2 :: rest } := by
  unfold Module.finish_line at h
  split at h
  · exact Or.inl ⟨by assumption, by cases h; rfl⟩
  · next f rest hstack =>
    split at h
    · cases h
    · next f2 hmod => exact Or.inr ⟨f, rest, f2, hstack, hmod, by cases h; rfl⟩

theorem finish_call_inv (s : Module) (code d : Nat) (s' : Module)
    (h : s.finish_call code d = .ok s') :
    ∃ fn, alookup s.functions code = some fn ∧
      s' = { s with
        functions := amodify s.functions code (fun f => f.add_elapsed_internal d) } := by
  unfold Module.finish_call at h
  split at h
  · cases h
  · next fn hfn => exact ⟨fn, hfn, by cases h; rfl⟩

theorem finish_creturn_inv (s : Module) (d : Nat) (s' : Module)
    (h : s.finish_creturn d = .ok s') :
    ∃ f rest, s.frame_stack = f :: rest ∧
      s' = { s with frame_stack := f.add_internal d :: rest } := by
  unfold Module.finish_creturn at h
  split at h
  · cases h
  · next f rest hstack => exact ⟨f, rest, hstack, by cases h; rfl⟩

theorem finish_ccall_inv (s : Module) (d : Nat) (s' : Module)
    (h : s.finish_ccall d = .ok s') :
    ∃ bf f rest f2, alookup s.c_functions s.last_c_name = some bf ∧
      s.frame_stack = f :: rest ∧
      f.modifyCurrentLine (fun l => l.add_external d) = some f2 ∧
      s' = { s with
        c_functions := amodify s.c_functions s.last_c_name
          (fun fn => fn.add_elapsed_internal d),
        frame_stack := f2 :: rest } := by
  unfold Module.finish_ccall at h
  split at h
  · cases h
  · next bf hbf =>
    dsimp only at h
    split at h
    · cases h
    · next f rest hstack =>
      split at h
      · cases h
      · next f2 hmod => exact ⟨bf, f, rest, f2, hbf, hstack, hmod, by cases h; rfl⟩

theorem pop_frame_inv (s : Module) (s' : Module) (h : s.pop_frame = .ok s') :
    ∃ f rest fn recs, s.frame_stack = f :: rest ∧
      alookup s.functions f.function_key = some fn ∧
      mergeLines (fn.add_elapsed_internal f.internal).lines f.lines = some recs ∧
      ((rest = [] ∧ s' = { s with
          functions := amodify s.functions f.function_key
            (fun _ => { fn.add_elapsed_internal f.internal with lines := recs }),
          frame_stack := [] }) ∨
       (∃ caller below caller2, rest = caller :: below ∧
          caller.modifyCurrentLine (fun l => l.add_external f.total_time) = some caller2 ∧
          s' = { s with
            functions := amodify s.functions f.function_key
              (fun _ => { fn.add_elapsed_internal f.internal with lines := recs }),
            frame_stack := caller2 :: below })) := by
  unfold Module.pop_frame at h
  split at h
  · cases h
  · next f rest hstack =>
    split at h
    · cases h
    · next fn hfn =>
      dsimp only at h
      split at h
      · cases h
      · next recs hrecs =>
        split at h
        · exact ⟨f, [], fn, recs, hstack, hfn, hrecs,
            Or.inl ⟨rfl, by cases h; rfl⟩⟩
        · next caller below =>
          split at h
          · cases h
          · next caller2 hmod =>
            exact ⟨f, caller :: below, fn, recs, hstack, hfn, hrecs,
              Or.inr ⟨caller, below, caller2, rfl, hmod, by cases h; rfl⟩⟩

theorem finish_return_inv (s : Module) (d : Nat) (s' : Module)
    (h : s.finish_return d = .ok s') :
    ∃ f rest, s.frame_stack = f :: rest ∧
      Module.pop_frame { s with frame_stack := f.add_internal d :: rest } = .ok s' := by
  unfold Module.finish_return at h
  split at h
  · cases h
  · next f rest hstack => exact ⟨f, rest, hstack, h⟩

theorem profile_line_inv (s : Module) (n : Nat) (s' : Module)
    (h : s.profile_line n = .ok s') :
    (s.frame_stack = [] ∧ s' = { s with last_instruction := .kLine }) ∨
    ∃ f rest f2, s.frame_stack = f :: rest ∧
      (f.set_current_line n).modifyCurrentLine LineState.add_call = some f2 ∧
      s' = { s with last_instruction := .kLine, frame_stack := f2 :: rest } := by
  unfold Module.profile_line at h
  dsimp only at h
  split at h
  · next hstack => exact Or.inl ⟨hstack, by cases h; rfl⟩
  · next f rest hstack =>
    split at h
    · cases h
    · next f2 hmod => exact Or.inr ⟨f, rest, f2, hstack, hmod, by cases h; rfl⟩

theorem get?_set_same {α : Type} : ∀ (l : List α) (i : Nat) (a b : α),
    l.get? i = some a → (l.set i b).get? i = some b := by
  intro l
  induction l with
  | nil => intro i a b h; simp [List.get?] at h
  | cons x t ih =>
    intro i a b h
    cases i with
    | zero => simp [List.set]
    | succ j => simpa [List.set, List.get?] using ih j a b (by simpa [List.get?] using h)

theorem modifyCurrentLine_spec (f : FrameState) (g : LineState → LineState)
    (f2 : FrameState) (h : f.modifyCurrentLine g = some f2) :
    ∃ l, f.getCurrentLine = some l ∧
      f2 = { f with lines := f.lines.set f.lineIdx (g l) } := by
  unfold FrameState.modifyCurrentLine at h
  split at h
  · cases h
  · next l hl => exact ⟨l, hl, by cases h; rfl⟩

theorem modifyCurrentLine_getCurrentLine (f : FrameState) (g : LineState → LineState)
    (f2 : FrameState) (h : f.modifyCurrentLine g = some f2) :
    ∃ l, f.getCurrentLine = some l ∧ f2.getCurrentLine = some (g l) := by
  obtain ⟨l, hl, rfl⟩ := modifyCurrentLine_spec f g f2 h
  refine ⟨l, hl, ?_⟩
  have hl2 : f.lines.get? f.lineIdx = some l := hl
  simpa [FrameState.getCurrentLine, FrameState.lineIdx] using
    get?_set_same f.lines f.lineIdx l (g l) hl2

theorem profile_inv (s : Module) (e : Event) (s' : Module)
    (h : s.profile e = .ok s') :
    ∃ s1 s2, s.finishPhase e = .ok s1 ∧ s1.beginPhase e = .ok s2 ∧
      s' = { s2 with last_time := e.time } := by
  unfold Module.profile at h
  split at h
  · cases h
  · next s1 hfin =>
    split at h
    · cases h
    · next s2 hbeg => exact ⟨s1, s2, hfin, hbeg, by cases h; rfl⟩

/- ------------------------------------------------------------------ -/
/- Claim theorems.                                                     -/
/- ------------------------------------------------------------------ -/

/-- C6: the merge operation on (call count, internal time, external time)
    triples (`LineState::operator+=`) is commutative and associative, so
    folding it over any permutation of a collection of line states yields the
    same totals regardless of the order of merging and of interleaving. -/
theorem C6_merge_commutative_associative :
    (∀ a b : LineState, a.merge b = b.merge a) ∧
    (∀ a b c : LineState, (a.merge b).merge c = a.merge (b.merge c)) ∧
    (∀ (l1 l2 : List LineState) (a : LineState), l1.Perm l2 →
      l1.foldl LineState.merge a = l2.foldl LineState.merge a) := by
  refine ⟨?_, ?_, ?_⟩
  · intro a b
    cases a; cases b
    simp only [LineState.merge, LineState.mk.injEq]
    omega
  · intro a b c
    cases a; cases b; cases c
    simp only [LineState.merge, LineState.mk.injEq]
    omega
  · intro l1 l2 a hperm
    induction hperm generalizing a with
    | nil => rfl
    | cons x _ ih => simpa [List.foldl] using ih (a.merge x)
    | swap x y l =>
      simp only [List.foldl]
      have hxy : (a.merge y).merge x = (a.merge x).merge y := by
        cases a; cases x; cases y
        simp only [LineState.merge, LineState.mk.injEq]
        omega
      rw [hxy]
    | trans _ _ ih1 ih2 => exact (ih1 a).trans (ih2 a)

/-- C7: calling dump twice with no intervening events returns the very same
    state and two identical reports: `Module::dump` is a pure read of the
    registries (in the source it only constructs a fresh report object and
    performs no write to any counter, frame or registry entry). -/
theorem C7_dump_idempotent_pure_read (s : Module) :
    s.runCmds [Cmd.dump, Cmd.dump] = .ok (s, [s.dump, s.dump]) := rfl

/-- Witness for C6: the fold over two concrete line states is permutation
    invariant. -/
theorem C6_witness :
    ([⟨1, 2, 3⟩, ⟨4, 5, 6⟩] : List LineState).foldl LineState.merge ⟨0, 0, 0⟩ =
      ([⟨4, 5, 6⟩, ⟨1, 2, 3⟩] : List LineState).foldl LineState.merge ⟨0, 0, 0⟩ :=
  C6_merge_commutative_associative.2.2 _ _ _ (List.Perm.swap _ _ [])

/-- C3: when the previous event was a NativeCall (marker kCCall), the Finish
    phase of the next event runs `Module::finish_ccall`, which adds the same
    elapsed duration both to the remembered BaseFunction's aggregate self time
    and to the caller frame's current line's external time. -/
theorem C3_ccall_double_charge (s : Module) (e : Event) (s' : Module)
    (hlast : s.last_instruction = .kCCall)
    (h : s.finishPhase e = .ok s') :
    ∃ bf f rest l,
      alookup s.c_functions s.last_c_name = some bf ∧
      s.frame_stack = f :: rest ∧
      f.getCurrentLine = some l ∧
      alookup s'.c_functions s.last_c_name =
        some (bf.add_elapsed_internal (e.time - s.last_time)) ∧
      ∃ f2, s'.frame_stack = f2 :: rest ∧
        f2.getCurrentLine = some (l.add_external (e.time - s.last_time)) := by
  simp only [Module.finishPhase, hlast] at h
  obtain ⟨bf, f, rest, f2, hbf, hstack, hmod, rfl⟩ := finish_ccall_inv s _ s' h
  obtain ⟨l, hl, hl2⟩ := modifyCurrentLine_getCurrentLine f _ f2 hmod
  refine ⟨bf, f, rest, l, hbf, hstack, hl, ?_, f2, rfl, hl2⟩
  simp [alookup_amodify, hbf]

/-- State just before the Finish of a NativeCall, for the C3 witness: a frame
    of one line at current line 2, the native name "g" registered. -/
def c3s : Module :=
  ⟨[(7, ⟨⟨1, "f", 2⟩, 7, [⟨⟨1, 3, 0⟩, "  x"⟩]⟩)], [("g", ⟨1, "g", 0⟩)],
   [⟨1, 2, 7, [⟨1, 3, 0⟩], 0⟩], .kCCall, 5, "g"⟩

/-- The event following the NativeCall, at time 9 (elapsed 4). -/
def c3e : Event := ⟨7, .C_RETURN, 9⟩

/-- The state produced by the Finish phase for the C3 witness. -/
def c3s2 : Module :=
  ⟨[(7, ⟨⟨1, "f", 2⟩, 7, [⟨⟨1, 3, 0⟩, "  x"⟩]⟩)], [("g", ⟨1, "g", 4⟩)],
   [⟨1, 2, 7, [⟨1, 3, 4⟩], 0⟩], .kCCall, 5, "g"⟩

/-- Witness for C3 at a concrete state and event. -/
theorem C3_witness :
    ∃ bf f rest l,
      alookup c3s.c_functions c3s.last_c_name = some bf ∧
      c3s.frame_stack = f :: rest ∧
      f.getCurrentLine = some l ∧
      alookup c3s2.c_functions c3s.last_c_name =
        some (bf.add_elapsed_internal (c3e.time - c3s.last_time)) ∧
      ∃ f2, c3s2.frame_stack = f2 :: rest ∧
        f2.getCurrentLine = some (l.add_external (c3e.time - c3s.last_time)) :=
  C3_ccall_double_charge c3s c3e c3s2 rfl rfl

theorem finishPhase_keys (s : Module) (e : Event) (s' : Module)
    (h : s.finishPhase e = .ok s') :
    (∀ k, (alookup s'.functions k).isSome = (alookup s.functions k).isSome) ∧
    (∀ k, (alookup s'.c_functions k).isSome = (alookup s.c_functions k).isSome) ∧
    s'.last_instruction = s.last_instruction ∧ s'.last_time = s.last_time ∧
    s'.last_c_name = s.last_c_name := by
  unfold Module.finishPhase at h
  split at h
  · cases h; exact ⟨fun _ => rfl, fun _ => rfl, rfl, rfl, rfl⟩
  · rcases finish_line_inv _ _ _ h with ⟨_, rfl⟩ | ⟨f, rest, f2, _, _, rfl⟩ <;>
      exact ⟨fun _ => rfl, fun _ => rfl, rfl, rfl, rfl⟩
  · obtain ⟨fn, hfn, rfl⟩ := finish_call_inv _ _ _ _ h
    exact ⟨fun k => alookup_amodify_isSome _ _ _ _, fun _ => rfl, rfl, rfl, rfl⟩
  · obtain ⟨f, rest, hstack, hpop⟩ := finish_return_inv _ _ _ h
    obtain ⟨f2, rest2, fn, recs, hstack2, hfn, hrecs, hcases⟩ := pop_frame_inv _ _ hpop
    rcases hcases with ⟨hrest, rfl⟩ | ⟨caller, below, caller2, hrest, hmod, rfl⟩ <;>
      exact ⟨fun k => alookup_amodify_isSome _ _ _ _, fun _ => rfl, rfl, rfl, rfl⟩
  · cases h; exact ⟨fun _ => rfl, fun _ => rfl, rfl, rfl, rfl⟩
  · obtain ⟨bf, f, rest, f2, hbf, hstack, hmod, rfl⟩ := finish_ccall_inv _ _ _ h
    exact ⟨fun _ => rfl, fun k => alookup_amodify_isSome _ _ _ _, rfl, rfl, rfl⟩
  · obtain ⟨f, rest, hstack, rfl⟩ := finish_creturn_inv _ _ _ h
    exact ⟨fun _ => rfl, fun _ => rfl, rfl, rfl, rfl⟩
  · cases h; exact ⟨fun _ => rfl, fun _ => rfl, rfl, rfl, rfl⟩
  · cases h; exact ⟨fun _ => rfl, fun _ => rfl, rfl, rfl, rfl⟩

theorem add_function_parts (s : Module) (code : Nat) (name : String)
    (srcLines : List String) :
    (s.add_function code name srcLines).c_functions = s.c_functions ∧
    (s.add_function code name srcLines).frame_stack = s.frame_stack ∧
    (s.add_function code name srcLines).last_instruction = s.last_instruction ∧
    (s.add_function code name srcLines).last_time = s.last_time ∧
    (s.add_function code name srcLines).last_c_name = s.last_c_name := by
  unfold Module.add_function
  split <;> exact ⟨rfl, rfl, rfl, rfl, rfl⟩

theorem beginPhase_functions_eq (s : Module) (e : Event) (s' : Module)
    (h : s.beginPhase e = .ok s')
    (hnc : ∀ name srcLines lineStart, e.what ≠ .CALL name srcLines lineStart) :
    s'.functions = s.functions := by
  cases hwhat : e.what <;> simp only [Module.beginPhase, hwhat] at h
  case LINE n =>
    rcases profile_line_inv _ _ _ h with ⟨_, rfl⟩ | ⟨f, rest, f2, _, _, rfl⟩ <;> rfl
  case CALL name srcLines lineStart => exact absurd hwhat (hnc name srcLines lineStart)
  case RETURN => cases h; rfl
  case C_CALL cname =>
    cases h
    show (s.profile_c_call cname).functions = s.functions
    rfl
  case C_RETURN => cases h; rfl
  case EXCEPTION => cases h; rfl
  case C_EXCEPTION => cases h; rfl
  case OPCODE => cases h; rfl

theorem beginPhase_c_functions_eq (s : Module) (e : Event) (s' : Module)
    (h : s.beginPhase e = .ok s')
    (hnc : ∀ cname, e.what ≠ .C_CALL cname) :
    s'.c_functions = s.c_functions := by
  cases hwhat : e.what <;> simp only [Module.beginPhase, hwhat] at h
  case LINE n =>
    rcases profile_line_inv _ _ _ h with ⟨_, rfl⟩ | ⟨f, rest, f2, _, _, rfl⟩ <;> rfl
  case CALL name srcLines lineStart =>
    cases h
    show (s.profile_call e.code name srcLines lineStart).c_functions = s.c_functions
    unfold Module.profile_call Module.emplace_frame
    exact (add_function_parts s e.code name srcLines).1
  case RETURN => cases h; rfl
  case C_CALL cname => exact absurd hwhat (hnc cname)
  case C_RETURN => cases h; rfl
  case EXCEPTION => cases h; rfl
  case C_EXCEPTION => cases h; rfl
  case OPCODE => cases h; rfl

/-- C8: a Finish step that looks up a callable identity absent from its
    registry (a Call Finish with the code missing from the function map, or a
    NativeCall Finish with the remembered name missing from the native map)
    raises an error and never inserts a default entry; registry keys are only
    ever created by the Call/NativeCall Begin steps. -/
theorem C8_missing_lookup_fails_loudly :
    (∀ (s : Module) (e : Event), s.last_instruction = .kCall →
      alookup s.functions e.code = none → ∃ msg, s.profile e = .error msg) ∧
    (∀ (s : Module) (e : Event), s.last_instruction = .kCCall →
      alookup s.c_functions s.last_c_name = none → ∃ msg, s.profile e = .error msg) ∧
    (∀ (s : Module) (e : Event) (s' : Module), s.profile e = .ok s' →
      (∀ name srcLines lineStart, e.what ≠ .CALL name srcLines lineStart) →
      ∀ k, (alookup s'.functions k).isSome = (alookup s.functions k).isSome) ∧
    (∀ (s : Module) (e : Event) (s' : Module), s.profile e = .ok s' →
      (∀ cname, e.what ≠ .C_CALL cname) →
      ∀ k, (alookup s'.c_functions k).isSome = (alookup s.c_functions k).isSome) := by
  refine ⟨?_, ?_, ?_, ?_⟩
  · intro s e hlast hnone
    refine ⟨"finish_call: unknown function", ?_⟩
    unfold Module.profile Module.finishPhase
    rw [hlast]
    unfold Module.finish_call
    rw [hnone]
  · intro s e hlast hnone
    refine ⟨"finish_ccall: unknown c function", ?_⟩
    unfold Module.profile Module.finishPhase
    rw [hlast]
    unfold Module.finish_ccall
    rw [hnone]
  · intro s e s' h hnc k
    obtain ⟨s1, s2, hfin, hbeg, rfl⟩ := profile_inv s e s' h
    have h1 := (finishPhase_keys s e s1 hfin).1 k
    have h2 := beginPhase_functions_eq s1 e s2 hbeg hnc
    simpa [h2] using h1
  · intro s e s' h hnc k
    obtain ⟨s1, s2, hfin, hbeg, rfl⟩ := profile_inv s e s' h
    have h1 := (finishPhase_keys s e s1 hfin).2.1 k
    have h2 := beginPhase_c_functions_eq s1 e s2 hbeg hnc
    simpa [h2] using h1

/-- The state after processing the NativeReturn event from `c3s`, for the C8
    witness. -/
def c8s3 : Module :=
  ⟨[(7, ⟨⟨1, "f", 2⟩, 7, [⟨⟨1, 3, 0⟩, "  x"⟩]⟩)], [("g", ⟨1, "g", 4⟩)],
   [⟨1, 2, 7, [⟨1, 3, 4⟩], 0⟩], .kCReturn, 9, "g"⟩

/-- Witness for C8: a Call Finish with an empty registry errors; a NativeCall
    Finish with an unregistered name errors; a NativeReturn event creates no
    registry key. -/
theorem C8_witness :
    (∃ msg, Module.profile ⟨[], [], [], .kCall, 0, ""⟩ ⟨0, .OPCODE, 3⟩ = .error msg) ∧
    (∃ msg, Module.profile ⟨[], [], [], .kCCall, 0, ""⟩ ⟨0, .OPCODE, 3⟩ = .error msg) ∧
    (∀ k, (alookup c8s3.functions k).isSome = (alookup c3s.functions k).isSome) ∧
    (∀ k, (alookup c8s3.c_functions k).isSome = (alookup c3s.c_functions k).isSome) := by
  refine ⟨?_, ?_, ?_, ?_⟩
  · exact C8_missing_lookup_fails_loudly.1 _ _ rfl rfl
  · exact C8_missing_lookup_fails_loudly.2.1 _ _ rfl rfl
  · exact C8_missing_lookup_fails_loudly.2.2.1 c3s ⟨7, .C_RETURN, 9⟩ c8s3 (by rfl)
      (fun name srcLines lineStart h => by cases h)
  · exact C8_missing_lookup_fails_loudly.2.2.2 c3s ⟨7, .C_RETURN, 9⟩ c8s3 (by rfl)
      (fun cname h => by cases h)

theorem usub64_exact (a b : Nat) (hb : b ≤ a) (ha : a < u64) : usub64 a b = a - b := by
  unfold usub64 u64
  unfold u64 at ha
  have hb2 : b < 18446744073709551616 := lt_of_le_of_lt hb ha
  rw [Nat.mod_eq_of_lt ha, Nat.mod_eq_of_lt hb2]
  have hsplit : a + (18446744073709551616 - b) = (a - b) + 18446744073709551616 := by
    omega
  rw [hsplit, Nat.add_mod_right]
  exact Nat.mod_eq_of_lt (by omega)

theorem profile_call_new_inv (s : Module) (code : Nat) (name : String)
    (srcLines : List String) (lineStart : Nat)
    (habs : alookup s.functions code = none) :
    s.profile_call code name srcLines lineStart =
      { s with
        functions := amodify (ainsert s.functions code
            (Function.make name (get_lines srcLines) code)) code Function.add_call,
        frame_stack :=
          FrameState.make code (get_lines srcLines).length lineStart :: s.frame_stack,
        last_instruction := .kCall } := by
  unfold Module.profile_call Module.emplace_frame Module.add_function
  rw [habs]

/-- C10: a callable whose source query returns n ≥ 1 lines is stored with the
    very first returned line (the definition line) dropped: its Function gets
    n−1 LineRecords whose texts are the tail of the host lines, the pushed
    FrameState has n−1 LineStates, and record index i corresponds to absolute
    line number starting_line + 1 + i. -/
theorem C10_first_line_dropped (s : Module) (e : Event) (s' : Module)
    (name : String) (srcLines : List String) (lineStart n : Nat)
    (hw : e.what = .CALL name srcLines lineStart)
    (hn : srcLines.length = n) (hn1 : 1 ≤ n)
    (habs : alookup s.functions e.code = none)
    (h : s.profile e = .ok s')
    (hbound : lineStart + n < u64) :
    ∃ fn, alookup s'.functions e.code = some fn ∧
      fn.lines.length = n - 1 ∧
      fn.lines.map LineRecord.line = srcLines.tail ∧
      ∃ fr frest, s'.frame_stack = fr :: frest ∧
        fr.lines.length = n - 1 ∧ fr.starting_line = lineStart ∧
        ∀ i, i < n - 1 → (fr.set_current_line (lineStart + 1 + i)).lineIdx = i := by
  obtain ⟨s1, s2, hfin, hbeg, rfl⟩ := profile_inv s e s' h
  have hkeys := (finishPhase_keys s e s1 hfin).1 e.code
  have habs1 : alookup s1.functions e.code = none := by
    cases hx : alookup s1.functions e.code with
    | none => rfl
    | some v => rw [hx, habs] at hkeys; simp at hkeys
  simp only [Module.beginPhase, hw] at hbeg
  cases hbeg
  rw [profile_call_new_inv s1 e.code name srcLines lineStart habs1]
  refine ⟨(Function.make name (get_lines srcLines) e.code).add_call, ?_, ?_, ?_, ?_⟩
  · show alookup (amodify (ainsert s1.functions e.code
        (Function.make name (get_lines srcLines) e.code)) e.code Function.add_call)
        e.code = _
    rw [alookup_amodify, alookup_ainsert]
    simp [habs1]
  · show ((Function.make name (get_lines srcLines) e.code).add_call).lines.length = n - 1
    simp [Function.make, Function.add_call, get_lines, hn]
  · show ((Function.make name (get_lines srcLines) e.code).add_call).lines.map
        LineRecord.line = srcLines.tail
    simp only [Function.make, Function.add_call, get_lines, List.map_drop, List.map_map,
      List.drop_one]
    have hid : (LineRecord.line ∘ fun l => (⟨LineState.init, l⟩ : LineRecord)) = id := rfl
    rw [hid, List.map_id]
  · refine ⟨FrameState.make e.code (get_lines srcLines).length lineStart,
      s1.frame_stack, rfl, ?_, rfl, ?_⟩
    · simp [FrameState.make, get_lines, hn]
    · intro i hi
      show usub64 (usub64 (lineStart + 1 + i) lineStart) 1 = i
      have h1 : usub64 (lineStart + 1 + i) lineStart = 1 + i := by
        rw [usub64_exact (lineStart + 1 + i) lineStart (by omega) (by omega)]
        omega
      rw [h1, usub64_exact (1 + i) 1 (by omega) (by omega)]
      omega

/-- Witness for C10: a three-line callable registered from the initial state. -/
theorem C10_witness :
    ∃ fn, alookup
        (⟨[(7, ⟨⟨1, "f", 0⟩, 7, [⟨⟨0, 0, 0⟩, "a"⟩, ⟨⟨0, 0, 0⟩, "b"⟩]⟩)], [],
          [⟨1, 0, 7, [⟨0, 0, 0⟩, ⟨0, 0, 0⟩], 0⟩], .kCall, 0, ""⟩ : Module).functions 7 =
        some fn ∧
      fn.lines.length = 3 - 1 ∧
      fn.lines.map LineRecord.line = ["def f:", "a", "b"].tail ∧
      ∃ fr frest,
        (⟨[(7, ⟨⟨1, "f", 0⟩, 7, [⟨⟨0, 0, 0⟩, "a"⟩, ⟨⟨0, 0, 0⟩, "b"⟩]⟩)], [],
          [⟨1, 0, 7, [⟨0, 0, 0⟩, ⟨0, 0, 0⟩], 0⟩], .kCall, 0, ""⟩ : Module).frame_stack =
          fr :: frest ∧
        fr.lines.length = 3 - 1 ∧ fr.starting_line = 1 ∧
        ∀ i, i < 3 - 1 → (fr.set_current_line (1 + 1 + i)).lineIdx = i :=
  C10_first_line_dropped initState ⟨7, .CALL "f" ["def f:", "a", "b"] 1, 0⟩ _
    "f" ["def f:", "a", "b"] 1 3 rfl rfl (by omega) rfl rfl (by unfold u64; omega)

theorem usub64_eval (a b : Nat) (ha : a < u64) (hb : b < u64) :
    usub64 a b = if b ≤ a then a - b else u64 - (b - a) := by
  unfold usub64
  rw [Nat.mod_eq_of_lt ha, Nat.mod_eq_of_lt hb]
  by_cases h : b ≤ a
  · rw [if_pos h]
    have hsplit : a + (u64 - b) = (a - b) + u64 := by
      unfold u64 at *
      omega
    rw [hsplit, Nat.add_mod_right]
    exact Nat.mod_eq_of_lt (by unfold u64 at *; omega)
  · rw [if_neg h]
    have hsplit : a + (u64 - b) = u64 - (b - a) := by
      unfold u64 at *
      omega
    rw [hsplit]
    exact Nat.mod_eq_of_lt (by unfold u64 at *; omega)

theorem lineIdx_underflow (f : FrameState) (hc : f.current_line ≤ f.starting_line)
    (hst : f.starting_line < u64) (hL : f.lines.length + f.starting_line < u64) :
    f.lines.length ≤ f.lineIdx := by
  have hcu : f.current_line < u64 := lt_of_le_of_lt hc hst
  have h1u : (1 : Nat) < u64 := by unfold u64; omega
  unfold FrameState.lineIdx
  rw [usub64_eval _ _ hcu hst]
  by_cases heq : f.starting_line ≤ f.current_line
  · rw [if_pos heq, usub64_eval _ _ (by omega) h1u]
    have hz : f.current_line - f.starting_line = 0 := by omega
    rw [hz, if_neg (by omega)]
    omega
  · rw [if_neg heq, usub64_eval _ _ (by omega) h1u]
    rw [if_pos (by omega)]
    omega

/-- C9: only the Line event's Begin and Finish steps guard against an empty
    call stack (they are no-ops there); the Finish steps for Return,
    NativeCall and NativeReturn access the top frame unguarded and fail on an
    empty stack, and the NativeCall Finish additionally indexes the caller's
    current line through the size_t expression current_line−starting_line−1,
    which for current_line ≤ starting_line wraps around past the line count
    (out of range); under the preconditions — non-empty stack and, for
    NativeCall, an in-range current-line cursor — the error branches are
    unreachable. -/
theorem C9_guard_analysis :
    (∀ (s : Module) (n : Nat), s.frame_stack = [] →
      s.profile_line n = .ok { s with last_instruction := .kLine }) ∧
    (∀ (s : Module) (d : Nat), s.frame_stack = [] → s.finish_line d = .ok s) ∧
    (∀ (s : Module) (d : Nat), s.frame_stack = [] →
      ∃ m, s.finish_return d = .error m) ∧
    (∀ (s : Module) (d : Nat), s.frame_stack = [] →
      ∃ m, s.finish_creturn d = .error m) ∧
    (∀ (s : Module) (d : Nat) (bf : BaseFunction),
      alookup s.c_functions s.last_c_name = some bf → s.frame_stack = [] →
      ∃ m, s.finish_ccall d = .error m) ∧
    (∀ (f : FrameState), f.current_line ≤ f.starting_line →
      f.starting_line < u64 → f.lines.length + f.starting_line < u64 →
      f.lines.length ≤ f.lineIdx) ∧
    (∀ (s : Module) (d : Nat) (bf : BaseFunction) (f : FrameState)
        (rest : List FrameState),
      alookup s.c_functions s.last_c_name = some bf →
      s.frame_stack = f :: rest → f.lineIdx < f.lines.length →
      ∃ s', s.finish_ccall d = .ok s') ∧
    (∀ (s : Module) (d : Nat) (f : FrameState) (rest : List FrameState),
      s.frame_stack = f :: rest → ∃ s', s.finish_creturn d = .ok s') := by
  refine ⟨?_, ?_, ?_, ?_, ?_, ?_, ?_, ?_⟩
  · intro s n hempty
    unfold Module.profile_line
    dsimp only
    rw [hempty]
  · intro s d hempty
    unfold Module.finish_line
    rw [hempty]
  · intro s d hempty
    refine ⟨"finish_return: empty stack", ?_⟩
    unfold Module.finish_return
    rw [hempty]
  · intro s d hempty
    refine ⟨"finish_creturn: empty stack", ?_⟩
    unfold Module.finish_creturn
    rw [hempty]
  · intro s d bf hbf hempty
    refine ⟨"finish_ccall: empty stack", ?_⟩
    unfold Module.finish_ccall
    rw [hbf]
    dsimp only
    rw [hempty]
  · exact fun f hc hst hL => lineIdx_underflow f hc hst hL
  · intro s d bf f rest hbf hstack hidx
    cases hx : f.lines.get? f.lineIdx with
    | none =>
      have := List.get?_eq_none.mp hx
      omega
    | some l =>
      have hmod : f.modifyCurrentLine (fun x => x.add_external d) =
          some { f with lines := f.lines.set f.lineIdx (l.add_external d) } := by
        unfold FrameState.modifyCurrentLine
        rw [hx]
      refine ⟨{ s with
          c_functions := amodify s.c_functions s.last_c_name
            (fun fn => fn.add_elapsed_internal d),
          frame_stack :=
            { f with lines := f.lines.set f.lineIdx (l.add_external d) } :: rest }, ?_⟩
      unfold Module.finish_ccall
      rw [hbf]
      dsimp only
      rw [hstack]
      dsimp only
      rw [hmod]
  · intro s d f rest hstack
    refine ⟨{ s with frame_stack := f.add_internal d :: rest }, ?_⟩
    unfold Module.finish_creturn
    rw [hstack]

/-- A state with a registered native name and an empty stack, for the C9
    witness. -/
def c9s5 : Module := ⟨[], [("g", ⟨1, "g", 0⟩)], [], .kCCall, 0, "g"⟩

/-- A frame whose line cursor was never moved past the starting line, for the
    C9 witness. -/
def c9f6 : FrameState := ⟨5, 3, 7, [⟨0, 0, 0⟩, ⟨0, 0, 0⟩], 0⟩

/-- Witness for C9: each guard/unguarded behavior at concrete inputs. -/
theorem C9_witness :
    (initState.profile_line 5 = .ok { initState with last_instruction := .kLine }) ∧
    (initState.finish_line 3 = .ok initState) ∧
    (∃ m, initState.finish_return 3 = .error m) ∧
    (∃ m, initState.finish_creturn 3 = .error m) ∧
    (∃ m, c9s5.finish_ccall 4 = .error m) ∧
    (c9f6.lines.length ≤ c9f6.lineIdx) ∧
    (∃ s', c3s.finish_ccall 4 = .ok s') ∧
    (∃ s', c3s.finish_creturn 4 = .ok s') := by
  refine ⟨?_, ?_, ?_, ?_, ?_, ?_, ?_, ?_⟩
  · exact C9_guard_analysis.1 initState 5 rfl
  · exact C9_guard_analysis.2.1 initState 3 rfl
  · exact C9_guard_analysis.2.2.1 initState 3 rfl
  · exact C9_guard_analysis.2.2.2.1 initState 3 rfl
  · exact C9_guard_analysis.2.2.2.2.1 c9s5 4 ⟨1, "g", 0⟩ rfl rfl
  · exact C9_guard_analysis.2.2.2.2.2.1 c9f6 (by decide) (by decide) (by decide)
  · exact C9_guard_analysis.2.2.2.2.2.2.1 c3s 4 ⟨1, "g", 0⟩ ⟨1, 2, 7, [⟨1, 3, 0⟩], 0⟩
      [] rfl rfl (by decide)
  · exact C9_guard_analysis.2.2.2.2.2.2.2 c3s 4 ⟨1, 2, 7, [⟨1, 3, 0⟩], 0⟩ [] rfl

/-- The event trace used to refute C2: a call at time 0, a line event at 2, a
    native call at 5, a NativeException at 9, a further line event at 12. -/
def c2trace : List Event :=
  [⟨7, .CALL "f" ["def f:", "  x"] 1, 0⟩, ⟨7, .LINE 2, 2⟩, ⟨7, .C_CALL "g", 5⟩,
   ⟨7, .C_EXCEPTION, 9⟩, ⟨7, .LINE 2, 12⟩]

/-- C2 counterexample: on `c2trace`, the NativeException event at time 9 runs
    the NativeCall Finish, so the 4 ns interval ending at the exception event
    is added to the native function "g"'s aggregate self time (= 4) and to the
    caller line's external time (= 4); and its Begin phase marks NativeReturn,
    so the 3 ns interval beginning at the exception event is added to the
    frame's overhead accumulator (= 3) at the next event — refuting the claim
    that processing a NativeException attributes no elapsed time anywhere. -/
theorem C2_counterexample :
    (stateAfter c2trace).map (fun s =>
      ((alookup s.c_functions "g").map BaseFunction.internal_time,
       s.frame_stack.map FrameState.internal,
       s.frame_stack.map (fun f => f.lines.map LineState.external))) =
      some (some 4, [3], [[4]]) := rfl

theorem beginPhase_last (s : Module) (e : Event) (s' : Module)
    (h : s.beginPhase e = .ok s') :
    s'.last_instruction = s.last_instruction ∨ s'.last_instruction = .kLine ∨
    s'.last_instruction = .kCall ∨ s'.last_instruction = .kReturn ∨
    s'.last_instruction = .kCCall ∨ s'.last_instruction = .kCReturn := by
  cases hwhat : e.what <;> simp only [Module.beginPhase, hwhat] at h
  case LINE n =>
    rcases profile_line_inv _ _ _ h with ⟨_, rfl⟩ | ⟨f, rest, f2, _, _, rfl⟩ <;>
      exact Or.inr (Or.inl rfl)
  case CALL name srcLines lineStart => cases h; exact Or.inr (Or.inr (Or.inl rfl))
  case RETURN => cases h; exact Or.inr (Or.inr (Or.inr (Or.inl rfl)))
  case C_CALL cname => cases h; exact Or.inr (Or.inr (Or.inr (Or.inr (Or.inl rfl))))
  case C_RETURN => cases h; exact Or.inr (Or.inr (Or.inr (Or.inr (Or.inr rfl))))
  case EXCEPTION => cases h; exact Or.inl rfl
  case C_EXCEPTION => cases h; exact Or.inr (Or.inr (Or.inr (Or.inr (Or.inr rfl))))
  case OPCODE => cases h; exact Or.inl rfl

/-- C2 amended: the Finish branches for Exception and NativeException are
    no-ops, but they are unreachable — no Begin step ever produces these
    markers. An Exception event's Begin phase leaves the previous marker in
    place, so the interval beginning at it is attributed under the previous
    event's rule; a NativeException event's Begin phase behaves as a
    NativeReturn, so the interval beginning at it is added to the top frame's
    overhead accumulator at the next event; and the interval ending at either
    exception event is attributed by the previous event's Finish as usual. -/
theorem C2_amended_exception_dispatch :
    (∀ (s : Module) (e : Event), s.last_instruction = .kException →
      s.finishPhase e = .ok s) ∧
    (∀ (s : Module) (e : Event), s.last_instruction = .kCException →
      s.finishPhase e = .ok s) ∧
    (∀ (s : Module) (e : Event) (s' : Module), s.profile e = .ok s' →
      s.last_instruction ≠ .kException → s'.last_instruction ≠ .kException) ∧
    (∀ (s : Module) (e : Event) (s' : Module), s.profile e = .ok s' →
      s.last_instruction ≠ .kCException → s'.last_instruction ≠ .kCException) ∧
    (∀ (s : Module) (e : Event) (s' : Module), e.what = .EXCEPTION →
      s.profile e = .ok s' → s'.last_instruction = s.last_instruction) ∧
    (∀ (s : Module) (e : Event) (s' : Module), e.what = .C_EXCEPTION →
      s.profile e = .ok s' → s'.last_instruction = .kCReturn) := by
  refine ⟨?_, ?_, ?_, ?_, ?_, ?_⟩
  · intro s e h
    simp only [Module.finishPhase, h]
  · intro s e h
    simp only [Module.finishPhase, h]
  · intro s e s' h hne
    obtain ⟨s1, s2, hfin, hbeg, rfl⟩ := profile_inv s e s' h
    have hl1 := (finishPhase_keys s e s1 hfin).2.2.1
    show s2.last_instruction ≠ .kException
    rcases beginPhase_last s1 e s2 hbeg with h2 | h2 | h2 | h2 | h2 | h2 <;> rw [h2]
    · rw [hl1]; exact hne
    · decide
    · decide
    · decide
    · decide
    · decide
  · intro s e s' h hne
    obtain ⟨s1, s2, hfin, hbeg, rfl⟩ := profile_inv s e s' h
    have hl1 := (finishPhase_keys s e s1 hfin).2.2.1
    show s2.last_instruction ≠ .kCException
    rcases beginPhase_last s1 e s2 hbeg with h2 | h2 | h2 | h2 | h2 | h2 <;> rw [h2]
    · rw [hl1]; exact hne
    · decide
    · decide
    · decide
    · decide
    · decide
  · intro s e s' hw h
    obtain ⟨s1, s2, hfin, hbeg, rfl⟩ := profile_inv s e s' h
    have hl1 := (finishPhase_keys s e s1 hfin).2.2.1
    simp only [Module.beginPhase, hw] at hbeg
    cases hbeg
    exact hl1
  · intro s e s' hw h
    obtain ⟨s1, s2, hfin, hbeg, rfl⟩ := profile_inv s e s' h
    simp only [Module.beginPhase, hw] at hbeg
    cases hbeg
    rfl

/-- Witness for the amended C2 at concrete states and events. -/
theorem C2_witness :
    (Module.finishPhase ⟨[], [], [], .kException, 0, ""⟩ ⟨0, .OPCODE, 1⟩ =
      .ok ⟨[], [], [], .kException, 0, ""⟩) ∧
    (Module.finishPhase ⟨[], [], [], .kCException, 0, ""⟩ ⟨0, .OPCODE, 1⟩ =
      .ok ⟨[], [], [], .kCException, 0, ""⟩) ∧
    ((⟨[], [], [], .kOrigin, 1, ""⟩ : Module).last_instruction ≠ .kException) ∧
    ((⟨[], [], [], .kOrigin, 1, ""⟩ : Module).last_instruction ≠ .kCException) ∧
    ((⟨[], [], [], .kOrigin, 1, ""⟩ : Module).last_instruction =
      initState.last_instruction) ∧
    ((⟨[], [], [], .kCReturn, 1, ""⟩ : Module).last_instruction = .kCReturn) :=
  ⟨C2_amended_exception_dispatch.1 _ ⟨0, .OPCODE, 1⟩ rfl,
   C2_amended_exception_dispatch.2.1 _ ⟨0, .OPCODE, 1⟩ rfl,
   C2_amended_exception_dispatch.2.2.1 initState ⟨0, .OPCODE, 1⟩ _ rfl (by decide),
   C2_amended_exception_dispatch.2.2.2.1 initState ⟨0, .OPCODE, 1⟩ _ rfl (by decide),
   C2_amended_exception_dispatch.2.2.2.2.1 initState ⟨0, .EXCEPTION, 1⟩ _ rfl rfl,
   C2_amended_exception_dispatch.2.2.2.2.2 initState ⟨0, .C_EXCEPTION, 1⟩ _ rfl rfl⟩

theorem total_time_eq_sum (f : FrameState) :
    f.total_time = (f.lines.map (fun l => l.internal + l.external)).sum := by
  unfold FrameState.total_time
  have hgen : ∀ (ls : List LineState) (acc : Nat),
      ls.foldl (fun acc l => acc + l.internal + l.external) acc =
        acc + (ls.map (fun l => l.internal + l.external)).sum := by
    intro ls
    induction ls with
    | nil => intro acc; simp
    | cons x t ih =>
      intro acc
      simp only [List.foldl, List.map, List.sum_cons, ih]
      omega
  simpa using hgen f.lines 0

theorem mergeLines_eq (recs : List LineRecord) (ls : List LineState) :
    mergeLines recs ls =
      if ls.length ≤ recs.length then
        some (List.zipWith (fun r l => { r with state := r.state.merge l }) recs ls ++
          recs.drop ls.length)
      else none := by
  induction recs generalizing ls with
  | nil =>
    cases ls with
    | nil => simp [mergeLines]
    | cons l lt => simp [mergeLines]
  | cons r rt ih =>
    cases ls with
    | nil => simp [mergeLines]
    | cons l lt =>
      show (match mergeLines rt lt with
        | none => none
        | some rs => some ({ r with state := r.state.merge l } :: rs)) = _
      rw [ih lt]
      by_cases hlen : lt.length ≤ rt.length
      · rw [if_pos hlen, if_pos (by simpa [Nat.succ_le_succ_iff] using hlen)]
        simp [List.zipWith, List.drop]
      · rw [if_neg hlen, if_neg (by simpa [Nat.succ_le_succ_iff] using hlen)]

/-- Pop written from the specification's wording, for the C4 refinement: (a)
    add the frame's overhead accumulator to its Function's aggregate self
    time; (b) add each ephemeral LineState (call count, internal, external,
    componentwise) into the persistent LineRecord at the same index; (c)
    compute the frame's total observed time as the sum over its lines of
    internal+external; (d) remove the frame from the stack; (e) if a caller
    frame remains, add that total to the caller's current line's external
    time. -/
def pop_frame_spec (s : Module) : Option Module :=
  match s.frame_stack with
  | [] => none
  | f :: rest =>
    match alookup s.functions f.function_key with
    | none => none
    | some fn =>
      let fnA : Function :=
        { fn with base :=
            { fn.base with internal_time := fn.base.internal_time + f.internal } }
      if f.lines.length ≤ fnA.lines.length then
        let recs := (List.zipWith (fun (r : LineRecord) (l : LineState) =>
            { r with state := ⟨r.state.n_calls + l.n_calls, r.state.internal + l.internal,
                r.state.external + l.external⟩ }) fnA.lines f.lines)
            ++ fnA.lines.drop f.lines.length
        let total := (f.lines.map (fun l => l.internal + l.external)).sum
        let s1 := { s with
          functions := amodify s.functions f.function_key (fun _ => { fnA with lines := recs }),
          frame_stack := rest }
        match rest with
        | [] => some s1
        | caller :: below =>
          match caller.modifyCurrentLine (fun l => l.add_external total) with
          | none => none
          | some caller2 => some { s1 with frame_stack := caller2 :: below }
      else none

/-- C4: `Module::pop_frame` behaves exactly as the five-step description (a)
    merge overhead into the aggregate, (b) merge the line states into the line
    records by index, (c) total = sum of internal+external, (d) discard the
    frame, (e) propagate the total into the caller's current line's external
    time — it succeeds with a given result state precisely when the
    description does. -/
theorem C4_pop_frame_refines_spec (s : Module) (s' : Module) :
    s.pop_frame = .ok s' ↔ pop_frame_spec s = some s' := by
  unfold Module.pop_frame pop_frame_spec
  cases hstack : s.frame_stack with
  | nil => simp
  | cons f rest =>
    dsimp only
    cases hfn : alookup s.functions f.function_key with
    | none => simp
    | some fn =>
      dsimp only
      rw [mergeLines_eq]
      have hcomb : (fun (r : LineRecord) (l : LineState) =>
            ({ r with state := r.state.merge l } : LineRecord)) =
          (fun (r : LineRecord) (l : LineState) =>
            ({ r with state := ⟨r.state.n_calls + l.n_calls, r.state.internal + l.internal,
                r.state.external + l.external⟩ } : LineRecord)) := rfl
      by_cases hlen : f.lines.length ≤ (fn.add_elapsed_internal f.internal).lines.length
      · rw [if_pos hlen,
          if_pos (show f.lines.length ≤ fn.lines.length from hlen)]
        dsimp only
        rw [total_time_eq_sum]
        cases rest with
        | nil => rw [hcomb]; exact ⟨fun h => by cases h; rfl, fun h => by cases h; rfl⟩
        | cons caller below =>
          dsimp only
          cases hmod : caller.modifyCurrentLine
              (fun l => l.add_external ((f.lines.map (fun l => l.internal + l.external)).sum)) with
          | none => simp
          | some caller2 =>
            dsimp only
            rw [hcomb]
            exact ⟨fun h => by cases h; rfl, fun h => by cases h; rfl⟩
      · rw [if_neg hlen,
          if_neg (show ¬ f.lines.length ≤ fn.lines.length from hlen)]
        simp

/-- Componentwise order on line-state triples. -/
def lsLE (a b : LineState) : Prop :=
  a.n_calls ≤ b.n_calls ∧ a.internal ≤ b.internal ∧ a.external ≤ b.external

/-- Same line text, componentwise non-decreasing counters. -/
def lrLE (a b : LineRecord) : Prop := a.line = b.line ∧ lsLE a.state b.state

/-- Non-decreasing call count, aggregate time, and line records. -/
def fnLE (a b : Function) : Prop :=
  a.base.n_calls ≤ b.base.n_calls ∧ a.base.internal_time ≤ b.base.internal_time ∧
  List.Forall₂ lrLE a.lines b.lines

/-- Non-decreasing call count and aggregate time for a native callable. -/
def bfLE (a b : BaseFunction) : Prop :=
  a.name = b.name ∧ a.n_calls ≤ b.n_calls ∧ a.internal_time ≤ b.internal_time

/-- Both registries only grow: every existing entry survives with
    componentwise non-decreasing call counts and time accumulators. -/
def regLE (s t : Module) : Prop :=
  (∀ k f, alookup s.functions k = some f →
    ∃ g, alookup t.functions k = some g ∧ fnLE f g) ∧
  (∀ k f, alookup s.c_functions k = some f →
    ∃ g, alookup t.c_functions k = some g ∧ bfLE f g)

theorem lsLE_refl (a : LineState) : lsLE a a := ⟨le_refl _, le_refl _, le_refl _⟩

theorem lrLE_refl (a : LineRecord) : lrLE a a := ⟨rfl, lsLE_refl a.state⟩

theorem forall2_lrLE_refl (l : List LineRecord) : List.Forall₂ lrLE l l :=
  List.forall₂_same.mpr fun x _ => lrLE_refl x

theorem fnLE_refl (a : Function) : fnLE a a :=
  ⟨le_refl _, le_refl _, forall2_lrLE_refl a.lines⟩

theorem bfLE_refl (a : BaseFunction) : bfLE a a := ⟨rfl, le_refl _, le_refl _⟩

theorem lsLE_trans {a b c : LineState} (h1 : lsLE a b) (h2 : lsLE b c) : lsLE a c :=
  ⟨le_trans h1.1 h2.1, le_trans h1.2.1 h2.2.1, le_trans h1.2.2 h2.2.2⟩

theorem lrLE_trans {a b c : LineRecord} (h1 : lrLE a b) (h2 : lrLE b c) : lrLE a c :=
  ⟨h1.1.trans h2.1, lsLE_trans h1.2 h2.2⟩

theorem forall2_lrLE_trans : ∀ {l1 l2 l3 : List LineRecord},
    List.Forall₂ lrLE l1 l2 → List.Forall₂ lrLE l2 l3 → List.Forall₂ lrLE l1 l3 := by
  intro l1 l2 l3 h1 h2
  induction h1 generalizing l3 with
  | nil => cases h2; exact .nil
  | cons hab h ih =>
    cases h2 with
    | cons hbc h2t => exact .cons (lrLE_trans hab hbc) (ih h2t)

theorem fnLE_trans {a b c : Function} (h1 : fnLE a b) (h2 : fnLE b c) : fnLE a c :=
  ⟨le_trans h1.1 h2.1, le_trans h1.2.1 h2.2.1, forall2_lrLE_trans h1.2.2 h2.2.2⟩

theorem bfLE_trans {a b c : BaseFunction} (h1 : bfLE a b) (h2 : bfLE b c) : bfLE a c :=
  ⟨h1.1.trans h2.1, le_trans h1.2.1 h2.2.1, le_trans h1.2.2 h2.2.2⟩

theorem regLE_refl (s : Module) : regLE s s :=
  ⟨fun _ f hq => ⟨f, hq, fnLE_refl f⟩, fun _ f hq => ⟨f, hq, bfLE_refl f⟩⟩

theorem regLE_trans {s t u : Module} (h1 : regLE s t) (h2 : regLE t u) : regLE s u := by
  refine ⟨fun k f hq => ?_, fun k f hq => ?_⟩
  · obtain ⟨g, hg, hfg⟩ := h1.1 k f hq
    obtain ⟨g2, hg2, hgg2⟩ := h2.1 k g hg
    exact ⟨g2, hg2, fnLE_trans hfg hgg2⟩
  · obtain ⟨g, hg, hfg⟩ := h1.2 k f hq
    obtain ⟨g2, hg2, hgg2⟩ := h2.2 k g hg
    exact ⟨g2, hg2, bfLE_trans hfg hgg2⟩

theorem amodify_mono {K V : Type} [DecidableEq K] (m : List (K × V)) (k : K)
    (g : V → V) (vle : V → V → Prop) (hrefl : ∀ v, vle v v) (hg : ∀ v, vle v (g v)) :
    ∀ q f, alookup m q = some f →
      ∃ f2, alookup (amodify m k g) q = some f2 ∧ vle f f2 := by
  intro q f hq
  rw [alookup_amodify]
  by_cases h : q = k
  · subst h
    rw [if_pos rfl, hq]
    exact ⟨g f, rfl, hg f⟩
  · rw [if_neg h]
    exact ⟨f, hq, hrefl f⟩

theorem amodify_mono_at {K V : Type} [DecidableEq K] (m : List (K × V)) (k : K)
    (g : V → V) (vle : V → V → Prop) (hrefl : ∀ v, vle v v)
    (fn : V) (hfn : alookup m k = some fn) (hg : vle fn (g fn)) :
    ∀ q f, alookup m q = some f →
      ∃ f2, alookup (amodify m k g) q = some f2 ∧ vle f f2 := by
  intro q f hq
  rw [alookup_amodify]
  by_cases h : q = k
  · subst h
    rw [if_pos rfl, hq]
    have hef : f = fn := by
      rw [hq] at hfn
      exact Option.some.inj hfn
    exact ⟨g f, rfl, by rw [hef]; exact hg⟩
  · rw [if_neg h]
    exact ⟨f, hq, hrefl f⟩

theorem ainsert_mono {K V : Type} [DecidableEq K] (m : List (K × V)) (k : K) (v : V)
    (vle : V → V → Prop) (hrefl : ∀ w, vle w w) :
    ∀ q f, alookup m q = some f →
      ∃ f2, alookup (ainsert m k v) q = some f2 ∧ vle f f2 := by
  intro q f hq
  rw [alookup_ainsert]
  by_cases h : q = k
  · subst h
    rw [if_pos rfl, hq]
    exact ⟨f, rfl, hrefl f⟩
  · rw [if_neg h]
    exact ⟨f, hq, hrefl f⟩

theorem fnLE_add_elapsed (f : Function) (d : Nat) :
    fnLE f (f.add_elapsed_internal d) :=
  ⟨le_refl _, Nat.le_add_right _ _, forall2_lrLE_refl f.lines⟩

theorem fnLE_add_call (f : Function) : fnLE f f.add_call :=
  ⟨Nat.le_succ _, le_refl _, forall2_lrLE_refl f.lines⟩

theorem bfLE_add_elapsed (f : BaseFunction) (d : Nat) :
    bfLE f (f.add_elapsed_internal d) := ⟨rfl, le_refl _, Nat.le_add_right _ _⟩

theorem bfLE_add_call (f : BaseFunction) : bfLE f f.add_call :=
  ⟨rfl, Nat.le_succ _, le_refl _⟩

theorem mergeLines_mono : ∀ (recs : List LineRecord) (ls : List LineState)
    (out : List LineRecord), mergeLines recs ls = some out →
    List.Forall₂ lrLE recs out := by
  intro recs
  induction recs with
  | nil =>
    intro ls out h
    cases ls with
    | nil => cases h; exact List.Forall₂.nil
    | cons l lt => cases h
  | cons r rt ih =>
    intro ls out h
    cases ls with
    | nil => cases h; exact forall2_lrLE_refl (r :: rt)
    | cons l lt =>
      unfold mergeLines at h
      split at h
      · cases h
      · next rs hrs =>
        cases h
        exact List.Forall₂.cons ⟨rfl, ⟨Nat.le_add_right _ _, Nat.le_add_right _ _,
          Nat.le_add_right _ _⟩⟩ (ih lt rs hrs)

theorem finishPhase_regLE (s : Module) (e : Event) (s' : Module)
    (h : s.finishPhase e = .ok s') : regLE s s' := by
  unfold Module.finishPhase at h
  split at h
  · cases h; exact regLE_refl _
  · rcases finish_line_inv _ _ _ h with ⟨_, rfl⟩ | ⟨f, rest, f2, _, _, rfl⟩ <;>
      exact regLE_refl _
  · obtain ⟨fn, hfn, rfl⟩ := finish_call_inv _ _ _ _ h
    exact ⟨amodify_mono _ _ _ fnLE fnLE_refl (fun v => fnLE_add_elapsed v _),
      fun k f hq => ⟨f, hq, bfLE_refl f⟩⟩
  · obtain ⟨f, rest, hstack, hpop⟩ := finish_return_inv _ _ _ h
    obtain ⟨f2, rest2, fn, recs, hstack2, hfn, hrecs, hcases⟩ := pop_frame_inv _ _ hpop
    have hfn2 : alookup s.functions f2.function_key = some fn := hfn
    have hgrow : fnLE fn { fn.add_elapsed_internal f2.internal with lines := recs } :=
      ⟨le_refl _, Nat.le_add_right _ _, mergeLines_mono _ _ _ hrecs⟩
    rcases hcases with ⟨hrest, rfl⟩ | ⟨caller, below, caller2, hrest, hmod, rfl⟩ <;>
      exact ⟨amodify_mono_at _ _ _ fnLE fnLE_refl fn hfn2 hgrow,
        fun k f3 hq => ⟨f3, hq, bfLE_refl f3⟩⟩
  · cases h; exact regLE_refl _
  · obtain ⟨bf, f, rest, f2, hbf, hstack, hmod, rfl⟩ := finish_ccall_inv _ _ _ h
    exact ⟨fun k f3 hq => ⟨f3, hq, fnLE_refl f3⟩,
      amodify_mono _ _ _ bfLE bfLE_refl (fun v => bfLE_add_elapsed v _)⟩
  · obtain ⟨f, rest, hstack, rfl⟩ := finish_creturn_inv _ _ _ h
    exact regLE_refl _
  · cases h; exact regLE_refl _
  · cases h; exact regLE_refl _

theorem beginPhase_regLE (s : Module) (e : Event) (s' : Module)
    (h : s.beginPhase e = .ok s') : regLE s s' := by
  cases hwhat : e.what <;> simp only [Module.beginPhase, hwhat] at h
  case LINE n =>
    rcases profile_line_inv _ _ _ h with ⟨_, rfl⟩ | ⟨f, rest, f2, _, _, rfl⟩ <;>
      exact regLE_refl _
  case CALL name srcLines lineStart =>
    cases h
    constructor
    · intro k f hq
      show ∃ g, alookup (s.profile_call e.code name srcLines lineStart).functions k =
        some g ∧ fnLE f g
      unfold Module.profile_call Module.emplace_frame Module.add_function
      cases hadd : alookup s.functions e.code with
      | some fn =>
        dsimp only
        exact amodify_mono _ _ _ fnLE fnLE_refl fnLE_add_call k f hq
      | none =>
        dsimp only
        obtain ⟨f2, hf2, hle⟩ := ainsert_mono s.functions e.code
          (Function.make name (get_lines srcLines) e.code) fnLE fnLE_refl k f hq
        obtain ⟨f3, hf3, hle3⟩ := amodify_mono _ e.code Function.add_call fnLE fnLE_refl
          fnLE_add_call k f2 hf2
        exact ⟨f3, hf3, fnLE_trans hle hle3⟩
    · intro k f hq
      show ∃ g, alookup (s.profile_call e.code name srcLines lineStart).c_functions k =
        some g ∧ bfLE f g
      unfold Module.profile_call Module.emplace_frame Module.add_function
      cases hadd : alookup s.functions e.code with
      | some fn => exact ⟨f, hq, bfLE_refl f⟩
      | none => exact ⟨f, hq, bfLE_refl f⟩
  case RETURN => cases h; exact regLE_refl _
  case C_CALL cname =>
    cases h
    constructor
    · intro k f hq
      exact ⟨f, hq, fnLE_refl f⟩
    · intro k f hq
      show ∃ g, alookup (s.profile_c_call cname).c_functions k = some g ∧ bfLE f g
      unfold Module.profile_c_call Module.add_c_function
      dsimp only
      obtain ⟨f2, hf2, hle⟩ := ainsert_mono s.c_functions cname
        (BaseFunction.init cname) bfLE bfLE_refl k f hq
      obtain ⟨f3, hf3, hle3⟩ := amodify_mono _ cname BaseFunction.add_call bfLE bfLE_refl
        bfLE_add_call k f2 hf2
      exact ⟨f3, hf3, bfLE_trans hle hle3⟩
  case C_RETURN => cases h; exact regLE_refl _
  case EXCEPTION => cases h; exact regLE_refl _
  case C_EXCEPTION => cases h; exact regLE_refl _
  case OPCODE => cases h; exact regLE_refl _

theorem profile_regLE (s : Module) (e : Event) (s' : Module)
    (h : s.profile e = .ok s') : regLE s s' := by
  obtain ⟨s1, s2, hfin, hbeg, rfl⟩ := profile_inv s e s' h
  exact regLE_trans (finishPhase_regLE s e s1 hfin)
    (regLE_trans (beginPhase_regLE s1 e s2 hbeg) (regLE_refl _))

/-- C5: over any successfully processed event sequence, every function, every
    native function and every line record only grows: the entry survives and
    its call count and every time accumulator (aggregate self/overhead,
    per-line internal and external) are monotonically non-decreasing. -/
theorem C5_session_monotone (s : Module) (es : List Event) (s' : Module)
    (h : s.profileList es = .ok s') : regLE s s' := by
  induction es generalizing s with
  | nil =>
    unfold Module.profileList at h
    cases h
    exact regLE_refl _
  | cons e tail ih =>
    unfold Module.profileList at h
    split at h
    · cases h
    · next s2 hstep => exact regLE_trans (profile_regLE s e s2 hstep) (ih s2 h)

/-- The four-event trace used by several witnesses: a call, a line, a return
    and a trailing event. -/
def w4trace : List Event :=
  [⟨7, .CALL "f" ["def f:", "  x = 1", "  y = 2"] 1, 0⟩, ⟨7, .LINE 2, 5⟩,
   ⟨7, .RETURN, 15⟩, ⟨7, .OPCODE, 22⟩]

/-- The final state of `w4trace`. -/
def w4final : Module :=
  ⟨[(7, ⟨⟨1, "f", 12⟩, 7, [⟨⟨1, 10, 0⟩, "  x = 1"⟩, ⟨⟨0, 0, 0⟩, "  y = 2"⟩]⟩)], [], [],
   .kReturn, 22, ""⟩

/-- Witness for C5 on a concrete session. -/
theorem C5_witness : regLE initState w4final :=
  C5_session_monotone initState w4trace w4final rfl

/-- The quantity claimed by C1 for a popped frame: the sum over its lines of
    internal plus external time, plus its overhead accumulator. -/
def FrameState.frameTotal (f : FrameState) : Nat := f.total_time + f.internal

/-- Event kinds that may occur inside a frame's body for the amended C1:
    line advance, native call, native return. -/
def isMid : What → Bool
  | .LINE _ => true
  | .C_CALL _ => true
  | .C_RETURN => true
  | _ => false

/-- The markers those events leave behind. -/
def midInstr : Instruction → Bool
  | .kLine => true
  | .kCCall => true
  | .kCReturn => true
  | _ => false

theorem sum_map_set (g : LineState → Nat) :
    ∀ (ls : List LineState) (i : Nat) (l x : LineState), ls.get? i = some l →
      ((ls.set i x).map g).sum + g l = (ls.map g).sum + g x := by
  intro ls
  induction ls with
  | nil => intro i l x h; simp [List.get?] at h
  | cons a t ih =>
    intro i l x h
    cases i with
    | zero =>
      simp only [List.get?] at h
      cases h
      simp only [List.set, List.map, List.sum_cons]
      omega
    | succ j =>
      simp only [List.get?] at h
      have := ih j l x h
      simp only [List.set, List.map, List.sum_cons]
      omega

theorem frameTotal_modify (f f2 : FrameState) (g : LineState → LineState) (dd : Nat)
    (hg : ∀ l, (g l).internal + (g l).external = l.internal + l.external + dd)
    (h : f.modifyCurrentLine g = some f2) :
    f2.frameTotal = f.frameTotal + dd ∧ f2.internal = f.internal ∧
    f2.current_line = f.current_line ∧ f2.starting_line = f.starting_line ∧
    f2.function_key = f.function_key := by
  obtain ⟨l, hl, rfl⟩ := modifyCurrentLine_spec f g f2 h
  refine ⟨?_, rfl, rfl, rfl, rfl⟩
  unfold FrameState.frameTotal
  rw [total_time_eq_sum, total_time_eq_sum]
  dsimp only
  have hset := sum_map_set (fun l => l.internal + l.external) f.lines f.lineIdx l (g l) hl
  have hgl := hg l
  simp only at hset
  omega

theorem frameTotal_add_internal (f : FrameState) (d : Nat) :
    (f.add_internal d).frameTotal = f.frameTotal + d := by
  unfold FrameState.frameTotal FrameState.add_internal FrameState.total_time
  dsimp only
  omega

theorem frameTotal_set_current_line (f : FrameState) (n : Nat) :
    (f.set_current_line n).frameTotal = f.frameTotal := rfl

/-- One Finish step from a mid marker adds exactly the elapsed interval to the
    top frame's lines-plus-overhead total and touches nothing else of the
    stack shape. -/
theorem midFinish_step (s : Module) (e : Event) (s' : Module) (F : FrameState)
    (rest : List FrameState)
    (hstack : s.frame_stack = F :: rest)
    (hmidi : midInstr s.last_instruction = true)
    (h : s.finishPhase e = .ok s') :
    ∃ F2, s'.frame_stack = F2 :: rest ∧
      F2.frameTotal = F.frameTotal + (e.time - s.last_time) ∧
      s'.last_instruction = s.last_instruction ∧ s'.last_time = s.last_time := by
  unfold Module.finishPhase at h
  cases hli : s.last_instruction <;> rw [hli] at h <;> rw [hli] at hmidi <;>
    simp [midInstr] at hmidi
  case kLine =>
    rcases finish_line_inv _ _ _ h with ⟨hemp, rfl⟩ | ⟨f, rest2, f2, hst, hmod, rfl⟩
    · rw [hstack] at hemp; cases hemp
    · rw [hstack] at hst
      cases hst
      obtain ⟨ht, _⟩ := frameTotal_modify _ _ _ (e.time - s.last_time)
        (fun l => by simp [LineState.add_internal]; omega) hmod
      exact ⟨f2, rfl, ht, hli, rfl⟩
  case kCCall =>
    obtain ⟨bf, f, rest2, f2, hbf, hst, hmod, rfl⟩ := finish_ccall_inv _ _ _ h
    rw [hstack] at hst
    cases hst
    obtain ⟨ht, _⟩ := frameTotal_modify _ _ _ (e.time - s.last_time)
      (fun l => by simp [LineState.add_external]; omega) hmod
    exact ⟨f2, rfl, ht, hli, rfl⟩
  case kCReturn =>
    obtain ⟨f, rest2, hst, rfl⟩ := finish_creturn_inv _ _ _ h
    rw [hstack] at hst
    cases hst
    exact ⟨F.add_internal (e.time - s.last_time), rfl, frameTotal_add_internal _ _,
      hli, rfl⟩

/-- One Begin step of a mid event leaves the top frame's total and the rest of
    the stack unchanged and leaves a mid marker. -/
theorem midBegin_step (s : Module) (e : Event) (s' : Module) (F : FrameState)
    (rest : List FrameState)
    (hstack : s.frame_stack = F :: rest)
    (hmide : isMid e.what = true)
    (h : s.beginPhase e = .ok s') :
    ∃ F2, s'.frame_stack = F2 :: rest ∧ midInstr s'.last_instruction = true ∧
      F2.frameTotal = F.frameTotal ∧ s'.last_time = s.last_time := by
  cases hwhat : e.what <;> rw [hwhat] at hmide <;> simp [isMid] at hmide <;>
    simp only [Module.beginPhase, hwhat] at h
  case LINE n =>
    rcases profile_line_inv _ _ _ h with ⟨hemp, rfl⟩ | ⟨f, rest2, f2, hst, hmod, rfl⟩
    · rw [hstack] at hemp; cases hemp
    · rw [hstack] at hst
      cases hst
      obtain ⟨ht, _⟩ := frameTotal_modify _ _ _ 0
        (fun l => by simp [LineState.add_call]) hmod
      refine ⟨f2, rfl, rfl, ?_, rfl⟩
      rw [ht, frameTotal_set_current_line]
      omega
  case C_CALL cname =>
    cases h
    refine ⟨F, ?_, rfl, rfl, rfl⟩
    show (s.profile_c_call cname).frame_stack = F :: rest
    unfold Module.profile_c_call Module.add_c_function
    exact hstack
  case C_RETURN =>
    cases h
    exact ⟨F, hstack, rfl, rfl, rfl⟩

theorem chain_snoc_split : ∀ (l : List Nat) (x a b : Nat),
    List.Chain (· ≤ ·) x (l ++ [a, b]) →
    List.Chain (· ≤ ·) x (l ++ [a]) ∧ a ≤ b := by
  intro l
  induction l with
  | nil =>
    intro x a b h
    cases h with
    | cons hxa ht =>
      cases ht with
      | cons hab _ => exact ⟨List.Chain.cons hxa List.Chain.nil, hab⟩
  | cons y t ih =>
    intro x a b h
    cases h with
    | cons hxy ht =>
      obtain ⟨h1, h2⟩ := ih y a b ht
      exact ⟨List.Chain.cons hxy h1, h2⟩

theorem profileList_singleton (s : Module) (e : Event) (s' : Module) :
    s.profileList [e] = .ok s' ↔ s.profile e = .ok s' := by
  unfold Module.profileList
  cases hstep : s.profile e with
  | error msg => simp
  | ok sA => simp [Module.profileList]

theorem profileList_cons (s : Module) (e : Event) (es : List Event) :
    s.profileList (e :: es) =
      match s.profile e with
      | .error msg => .error msg
      | .ok s2 => s2.profileList es := rfl

theorem profileList_append (a b : List Event) : ∀ (s s' : Module),
    s.profileList (a ++ b) = .ok s' ↔
    ∃ m, s.profileList a = .ok m ∧ m.profileList b = .ok s' := by
  induction a with
  | nil =>
    intro s s'
    constructor
    · intro h; exact ⟨s, rfl, h⟩
    · rintro ⟨m, hm, hb⟩
      cases hm
      exact hb
  | cons e t ih =>
    intro s s'
    show Module.profileList s (e :: (t ++ b)) = .ok s' ↔ _
    rw [profileList_cons]
    conv_rhs => rw [profileList_cons]
    cases hstep : s.profile e with
    | error msg => simp
    | ok sA => exact ih sA s'

/-- Successive events inside a frame's body (Line / NativeCall / NativeReturn
    only) add exactly the elapsed wall-clock to the top frame's
    lines-plus-overhead total. -/
theorem mids_run (es : List Event) : ∀ (s s' : Module) (F : FrameState)
    (rest : List FrameState) (tEnd : Nat),
    s.frame_stack = F :: rest →
    midInstr s.last_instruction = true →
    (∀ e ∈ es, isMid e.what = true) →
    List.Chain (· ≤ ·) s.last_time (es.map Event.time ++ [tEnd]) →
    s.profileList es = .ok s' →
    ∃ F2, s'.frame_stack = F2 :: rest ∧ midInstr s'.last_instruction = true ∧
      F2.frameTotal + s.last_time = F.frameTotal + s'.last_time ∧
      s.last_time ≤ s'.last_time ∧ s'.last_time ≤ tEnd := by
  induction es with
  | nil =>
    intro s s' F rest tEnd hstack hmidi hmids hchain h
    cases h
    cases hchain with
    | cons hle _ => exact ⟨F, hstack, hmidi, rfl, le_refl _, hle⟩
  | cons e tail ih =>
    intro s s' F rest tEnd hstack hmidi hmids hchain h
    unfold Module.profileList at h
    split at h
    · cases h
    · next sA hstep =>
      cases hchain with
      | cons hle hct =>
        obtain ⟨s1, s2, hfin, hbeg, rfl⟩ := profile_inv s e sA hstep
        obtain ⟨F1, hstack1, hft1, hlast1, hlt1⟩ :=
          midFinish_step s e s1 F rest hstack hmidi hfin
        obtain ⟨F2a, hstack2, hmid2, hft2, hlt2⟩ :=
          midBegin_step s1 e s2 F1 rest hstack1 (hmids e (by simp)) hbeg
        obtain ⟨F2, hstackF2, hmidF2, hftF2, hlef2, hteF2⟩ :=
          ih { s2 with last_time := e.time } s' F2a rest tEnd hstack2 hmid2
            (fun e2 he2 => hmids e2 (by simp [he2])) hct h
        have hftF2b : F2.frameTotal + e.time = F2a.frameTotal + s'.last_time := hftF2
        have hlef2b : e.time ≤ s'.last_time := hlef2
        refine ⟨F2, hstackF2, hmidF2, ?_, ?_, hteF2⟩
        · have hlt1b : s1.last_time = s.last_time := hlt1
          omega
        · omega

/-- C1 amended: for a frame whose body consists only of Line, NativeCall and
    NativeReturn events, once the frame is popped, the sum over its lines of
    internal plus external time plus its overhead accumulator equals the
    wall-clock span between the first event processed after its Call event and
    the event whose processing pops the frame (the first event after its
    Return) — not the span between the Call and Return events themselves: the
    Call-to-first-event interval is charged to the Function aggregate instead,
    and the Return-to-pop interval is included. -/
theorem C1_amended_frame_total (s0 : Module) (F0 : FrameState)
    (rest : List FrameState) (e1 : Event) (es : List Event) (eR eX : Event)
    (sR sX : Module)
    (hstack : s0.frame_stack = F0 :: rest)
    (hfresh : F0.frameTotal = 0)
    (hlast : s0.last_instruction = .kCall)
    (hmid1 : isMid e1.what = true)
    (hmids : ∀ e ∈ es, isMid e.what = true)
    (hR : eR.what = .RETURN)
    (hchain : List.Chain (· ≤ ·) s0.last_time ((e1 :: (es ++ [eR, eX])).map Event.time))
    (hrun : s0.profileList (e1 :: (es ++ [eR])) = .ok sR)
    (hX : sR.profile eX = .ok sX) :
    ∃ F1, sR.frame_stack = F1 :: rest ∧
      (∃ s1, sR.finishPhase eX = .ok s1 ∧ s1.frame_stack.length = rest.length) ∧
      (F1.add_internal (eX.time - eR.time)).frameTotal = eX.time - e1.time := by
  rw [show e1 :: (es ++ [eR]) = [e1] ++ (es ++ [eR]) from rfl, profileList_append] at hrun
  obtain ⟨sA, hA, hrest⟩ := hrun
  rw [profileList_append] at hrest
  obtain ⟨sB, hB, hRrun⟩ := hrest
  rw [profileList_singleton] at hA hRrun
  have hmap : (e1 :: (es ++ [eR, eX])).map Event.time =
      e1.time :: (es.map Event.time ++ [eR.time, eX.time]) := by simp
  rw [hmap] at hchain
  cases hchain with
  | cons hle0 hct =>
    obtain ⟨hchain1, hRX⟩ :=
      chain_snoc_split (es.map Event.time) e1.time eR.time eX.time hct
    obtain ⟨s1, s2, hfinA, hbegA, rfl⟩ := profile_inv s0 e1 sA hA
    have hfinA2 : s0.finish_call e1.code (e1.time - s0.last_time) = .ok s1 := by
      unfold Module.finishPhase at hfinA
      rw [hlast] at hfinA
      exact hfinA
    obtain ⟨fn, hfn, rfl⟩ := finish_call_inv _ _ _ _ hfinA2
    have hstackS1 :
        ({ s0 with
            functions :=
              amodify s0.functions e1.code fun f =>
                f.add_elapsed_internal (e1.time - s0.last_time) } : Module).frame_stack =
          F0 :: rest := hstack
    obtain ⟨F0b, hstackA, hmidA, hftA, hltA⟩ :=
      midBegin_step _ e1 s2 F0 rest hstackS1 hmid1 hbegA
    obtain ⟨Fp, hstackB, hmidB, hftB, hleB, hteB⟩ :=
      mids_run es { s2 with last_time := e1.time } sB F0b rest eR.time hstackA hmidA
        hmids hchain1 hB
    have hftBb : Fp.frameTotal + e1.time = F0b.frameTotal + sB.last_time := hftB
    have hleBb : e1.time ≤ sB.last_time := hleB
    obtain ⟨sB1, sB2, hfinR, hbegR, rfl⟩ := profile_inv sB eR sR hRrun
    obtain ⟨Fpp, hstackR1, hftR, hlastR1, hltR1⟩ :=
      midFinish_step sB eR sB1 Fp rest hstackB hmidB hfinR
    simp only [Module.beginPhase, hR] at hbegR
    cases hbegR
    have hstR : ({ sB1.profile_return with last_time := eR.time } : Module).frame_stack =
        Fpp :: rest := hstackR1
    refine ⟨Fpp, hstR, ?_, ?_⟩
    · obtain ⟨sX1, sX2, hfinX, hbegX, rfl⟩ := profile_inv _ eX sX hX
      have hfinX2 : Module.finish_return
          { sB1.profile_return with last_time := eR.time } (eX.time - eR.time) =
          .ok sX1 := hfinX
      obtain ⟨fpop, rest2, hstX, hpop⟩ := finish_return_inv _ _ _ hfinX2
      rw [hstR] at hstX
      cases hstX
      obtain ⟨f2, rest3, fn2, recs, hstack3, hfn3, hrecs3, hcases⟩ := pop_frame_inv _ _ hpop
      have hstack3b : Fpp.add_internal (eX.time - eR.time) :: rest = f2 :: rest3 := hstack3
      cases hstack3b
      refine ⟨sX1, hfinX, ?_⟩
      rcases hcases with ⟨hrest0, rfl⟩ | ⟨caller, below, caller2, hrest0, hmod, rfl⟩
      · simp [hrest0]
      · simp [hrest0]
    · rw [frameTotal_add_internal]
      have hftAb : F0b.frameTotal = F0.frameTotal := hftA
      omega

/-- The first three events of the C1 counterexample: Call at time 0, Line at
    5, Return at 15. -/
def c1trace3 : List Event :=
  [⟨7, .CALL "f" ["def f:", "  x = 1", "  y = 2"] 1, 0⟩, ⟨7, .LINE 2, 5⟩,
   ⟨7, .RETURN, 15⟩]

/-- C1 counterexample: on the trace Call@0, Line@5, Return@15 with a further
    event at 22, the frame popped while processing the final event (the top
    frame plus the elapsed 22−15 added by the Return Finish) carries lines
    total 10 plus overhead 7, i.e. 17 ns — the pop does occur (the stack
    empties) — while the wall-clock span between the frame's Call event (0)
    and its Return event (15) is 15 ns, and 17 ≠ 15.  The 5 ns between the
    Call event and the first Line event went to the Function aggregate, not
    the frame, and the 7 ns after the Return event are included. -/
theorem C1_counterexample :
    ((stateAfter c1trace3).map (fun s => s.frame_stack.map
      (fun f => (f.add_internal (22 - s.last_time)).frameTotal)) = some [17]) ∧
    ((stateAfter (c1trace3 ++ [⟨7, .OPCODE, 22⟩])).map
      (fun s => s.frame_stack.length) = some 0) ∧
    (17 : Nat) ≠ 15 := ⟨rfl, rfl, by decide⟩

/-- The state just after the Call Begin for the C1 witness. -/
def c1s0 : Module :=
  ⟨[(7, ⟨⟨1, "f", 0⟩, 7, [⟨⟨0, 0, 0⟩, "  x = 1"⟩, ⟨⟨0, 0, 0⟩, "  y = 2"⟩]⟩)], [],
   [⟨1, 0, 7, [⟨0, 0, 0⟩, ⟨0, 0, 0⟩], 0⟩], .kCall, 0, ""⟩

/-- The state just after the Return Begin for the C1 witness. -/
def c1sR : Module :=
  ⟨[(7, ⟨⟨1, "f", 5⟩, 7, [⟨⟨0, 0, 0⟩, "  x = 1"⟩, ⟨⟨0, 0, 0⟩, "  y = 2"⟩]⟩)], [],
   [⟨1, 2, 7, [⟨1, 10, 0⟩, ⟨0, 0, 0⟩], 0⟩], .kReturn, 15, ""⟩

/-- Witness for the amended C1 on the concrete session Call@0, Line@5,
    Return@15, pop at 22: the popped frame totals 22 − 5 = 17 ns. -/
theorem C1_witness :
    ∃ F1, c1sR.frame_stack = F1 :: [] ∧
      (∃ s1, c1sR.finishPhase ⟨7, .OPCODE, 22⟩ = .ok s1 ∧
        s1.frame_stack.length = ([] : List FrameState).length) ∧
      (F1.add_internal ((22 : Nat) - 15)).frameTotal = 22 - 5 :=
  C1_amended_frame_total c1s0 ⟨1, 0, 7, [⟨0, 0, 0⟩, ⟨0, 0, 0⟩], 0⟩ []
    ⟨7, .LINE 2, 5⟩ [] ⟨7, .RETURN, 15⟩ ⟨7, .OPCODE, 22⟩ c1sR w4final
    rfl rfl rfl rfl (fun e he => absurd he (List.not_mem_nil e)) rfl
    (List.Chain.cons (by decide) (List.Chain.cons (by decide)
      (List.Chain.cons (by decide) List.Chain.nil)))
    rfl rfl

end Bprof
